import Mathlib

/-!
Verification of the batched account-liquidity scanning pipeline of the
liquidatoor repository (package `pkg/liquidatoor`), as a shallow embedding
in Lean 4.

Modelling conventions, fixed once for the whole file:

* `common.Address` is modelled as `Nat` (only identity matters here).
* `*big.Int` values (liquidity, shortfall, balances) are modelled as `Int`;
  a nil `*big.Int` pointer (the `Shortfall` field of a cached borrower)
  is modelled as `Option Int` being `none`.
* Fallible Go calls (contract reads, ABI pack/unpack, the multicall
  aggregate) are modelled as `Except String` computations supplied by an
  environment record; the concrete error strings are irrelevant and carried
  opaquely.
* Byte-level call data is abstracted to `Nat`: the code only builds call
  data, hands it to the aggregate primitive and decodes positional results,
  so the actual bytes never influence the control flow modelled here.
-/

namespace Liquidatoor

/-- Model of `common.Address`. -/
abbrev Addr := Nat

/-- Model of the `Borrower` struct of `pkg/liquidatoor/cache.go`:
`Address common.Address`, `Assets []common.Address`,
`Shortfall *big.Int` (nil modelled as `none`). -/
structure Borrower where
  address : Addr
  assets : List Addr
  shortfall : Option Int
deriving Repr, DecidableEq, Inhabited

/-- The Go zero value of `Borrower` (zero address, nil slice, nil pointer). -/
def zeroB : Borrower := { address := 0, assets := [], shortfall := none }

/-- Shortfall value used by `ByShortfall.Less`, which calls
`a[i].Shortfall.Cmp(a[j].Shortfall)`. In the scanner every sorted entry has
`Shortfall` set (a nil pointer would make the Go code panic), so the `none`
fallback value 0 is never observed by any theorem about the scan. -/
def sfVal (b : Borrower) : Int := b.shortfall.getD 0

/-- `ByShortfall.Less(i, j)` from `pkg/liquidatoor/account.go`:
`a[i].Shortfall.Cmp(a[j].Shortfall) == 1`, i.e. strictly greater,
giving a descending order. -/
def lessB (x y : Borrower) : Bool := decide (sfVal y < sfVal x)

/-- The ordering relation "x may stay before y" of the descending sort:
the shortfall of `y` is at most the shortfall of `x`. -/
def descB (x y : Borrower) : Prop := sfVal y ≤ sfVal x

instance : DecidableRel descB := fun x y => by unfold descB; infer_instance

/-- A single multicall request entry (`abis.MulticallCall`):
a target address plus already-encoded call data (abstracted to `Nat`). -/
structure MCall where
  target : Addr
  callData : Nat
deriving Repr, DecidableEq

/-- The `for _, borrower := range borrowers` packing loop of
`ShortfallCheck` (and, with a different method, of `BorrowerCache.run`):
packs each address, aborting on the first packing error, and emits one
call per borrower against the fixed target, preserving order. -/
def packCalls (pack : Addr → Except String Nat) (target : Addr) :
    List Addr → Except String (List MCall)
  | [] => .ok []
  | x :: xs =>
    match pack x with
    | .error e => .error e
    | .ok d => (packCalls pack target xs).map (fun cs => ⟨target, d⟩ :: cs)

/-- The decode-and-classify loop of `ShortfallCheck`
(`src/unnamed/part_003` lines 357-377): each positional entry pairs the
borrower with the decoded `getAccountLiquidity` output. An `Unpack` failure
(`Except.error`) aborts the whole scan; a nonzero in-band contract error
logs the borrower and skips the entry; otherwise the borrower is emitted
as underwater exactly when `liquidity.Cmp(shortfall) == -1`, carrying the
original address and asset list and the decoded shortfall. The second
component collects the addresses logged for in-band errors, in order. -/
def scanEntries :
    List (Borrower × Except String (Int × Int × Int)) →
    Except String (List Borrower × List Addr)
  | [] => .ok ([], [])
  | (_, .error e) :: _ => .error e
  | (b, .ok (c, l, s)) :: rest =>
    if c ≠ 0 then
      (scanEntries rest).map (fun p => (p.1, b.address :: p.2))
    else if l < s then
      (scanEntries rest).map
        (fun p => ({ address := b.address, assets := b.assets,
                     shortfall := some s } :: p.1, p.2))
    else
      scanEntries rest

/-- Shorthand for the underwater borrower emitted for input borrower `b`
with decoded shortfall `s`. -/
def mkUW (b : Borrower) (s : Int) : Borrower :=
  { address := b.address, assets := b.assets, shortfall := some s }

/-!
Embedding of `sort.Sort` from the Go standard library (the pdqsort
implementation used by every Go release since 1.19; the repository pins no
older toolchain), instantiated at `ByShortfall`: `Len` is the list length,
`Less(i, j)` is `lessB` on the elements at `i` and `j`, and `Swap`
exchanges two positions. Lists play the role of the underlying slice;
loops are written with explicit fuel that is large enough to never be
exhausted (each loop of the Go code advances an index bounded by the
range, and each `pdqsort` step strictly shrinks `b - a`).
-/

/-- Element read `data[i]`; out-of-range reads never occur on the Go side
and default to the zero borrower here. -/
def getB (l : List Borrower) (i : Nat) : Borrower := l.getD i zeroB

/-- `data.Swap(i, j)`. Out of range (never hit by the embedded code) is
the identity. -/
def swapB (l : List Borrower) (i j : Nat) : List Borrower :=
  match l.get? i, l.get? j with
  | some xi, some xj => (l.set i xj).set j xi
  | _, _ => l

/-- `data.Less(i, j)`. -/
def lessAt (l : List Borrower) (i j : Nat) : Bool := lessB (getB l i) (getB l j)

/-- The inner loop of `insertionSort`:
`for j := i; j > a && data.Less(j, j-1); j-- { data.Swap(j, j-1) }`. -/
def bubble (l : List Borrower) (a : Nat) : Nat → List Borrower
  | 0 => l
  | j + 1 =>
    if a ≤ j ∧ lessAt l (j + 1) j then bubble (swapB l (j + 1) j) a j else l

/-- The outer loop of `insertionSort`, iterating `i` upward while `i < b`. -/
def isortAux (a b : Nat) : Nat → Nat → List Borrower → List Borrower
  | 0, _, l => l
  | fuel + 1, i, l => if i < b then isortAux a b fuel (i + 1) (bubble l a i) else l

/-- `insertionSort(data, a, b)` from the Go sort package. -/
def insertionSortGo (l : List Borrower) (a b : Nat) : List Borrower :=
  isortAux a b (b - a) (a + 1) l

/-- The loop of `siftDown(data, lo, hi, first)`. -/
def sdLoop : Nat → List Borrower → Nat → Nat → Nat → List Borrower
  | 0, l, _, _, _ => l
  | fuel + 1, l, first, hi, root =>
    let child := 2 * root + 1
    if child ≥ hi then l
    else
      let child :=
        if child + 1 < hi ∧ lessAt l (first + child) (first + child + 1)
        then child + 1 else child
      if ¬ lessAt l (first + root) (first + child) then l
      else sdLoop fuel (swapB l (first + root) (first + child)) first hi child

/-- `siftDown(data, lo, hi, first)`. -/
def siftDownGo (l : List Borrower) (lo hi first : Nat) : List Borrower :=
  sdLoop (hi + 1) l first hi lo

/-- The heap-building loop of `heapSort`:
`for i := (hi - 1) / 2; i >= 0; i--`. -/
def heapBuild : Nat → List Borrower → Nat → Nat → List Borrower
  | 0, l, _, _ => l
  | c + 1, l, hi, first => heapBuild c (siftDownGo l c hi first) hi first

/-- The pop loop of `heapSort`:
`for i := hi - 1; i >= 0; i-- { Swap(first, first+i); siftDown(lo, i, first) }`. -/
def heapPop : Nat → List Borrower → Nat → List Borrower
  | 0, l, _ => l
  | i + 1, l, first =>
    heapPop i (siftDownGo (swapB l first (first + i)) 0 i first) first

/-- `heapSort(data, a, b)`. -/
def heapSortGo (l : List Borrower) (a b : Nat) : List Borrower :=
  let hi := b - a
  heapPop hi (heapBuild ((hi - 1) / 2 + 1) l hi a) a

/-- One step of the `xorshift` random generator of the sort package,
on 64-bit state modelled as `Nat` reduced mod `2 ^ 64`. -/
def xsNext (r : Nat) : Nat :=
  let r1 := (r ^^^ (r <<< 13)) % 2 ^ 64
  let r2 := r1 ^^^ (r1 >>> 7)
  (r2 ^^^ (r2 <<< 17)) % 2 ^ 64

/-- `nextPowerOfTwo(length)`: `1 << bits.Len(uint(length))`. -/
def nextPowerOfTwo (length : Nat) : Nat :=
  1 <<< (if length = 0 then 0 else Nat.log2 length + 1)

/-- `breakPatterns(data, a, b)`: swaps three elements around the middle
with pseudo-random positions derived from the deterministic xorshift
generator seeded with the range length. -/
def breakPatterns (l : List Borrower) (a b : Nat) : List Borrower :=
  let length := b - a
  if length ≥ 8 then
    let modulus := nextPowerOfTwo length
    let idx := a + (length / 4) * 2 - 1
    let r1 := xsNext (length % 2 ^ 64)
    let o1 := let o := r1 % modulus; if o ≥ length then o - length else o
    let l := swapB l (idx - 1) (a + o1)
    let r2 := xsNext r1
    let o2 := let o := r2 % modulus; if o ≥ length then o - length else o
    let l := swapB l idx (a + o2)
    let r3 := xsNext r2
    let o3 := let o := r3 % modulus; if o ≥ length then o - length else o
    swapB l (idx + 1) (a + o3)
  else l

/-- The three sortedness hints of `choosePivot`. -/
inductive Hint where
  | increasing
  | decreasing
  | unknown
deriving Repr, DecidableEq

/-- `order2(data, a, b, &swaps)`: orders two indices by the data they
point at, counting a swap when it reorders them. -/
def order2 (l : List Borrower) (a b swaps : Nat) : Nat × Nat × Nat :=
  if lessAt l b a then (b, a, swaps + 1) else (a, b, swaps)

/-- `median(data, a, b, c, &swaps)`: index of the median of three. -/
def medianGo (l : List Borrower) (a b c swaps : Nat) : Nat × Nat :=
  let p1 := order2 l a b swaps
  let p2 := order2 l p1.2.1 c p1.2.2
  let p3 := order2 l p1.1 p2.1 p2.2.2
  (p3.2.1, p3.2.2)

/-- `medianAdjacent(data, a, &swaps)`: median of `a-1, a, a+1`. -/
def medianAdjacentGo (l : List Borrower) (a swaps : Nat) : Nat × Nat :=
  medianGo l (a - 1) a (a + 1) swaps

/-- `choosePivot(data, a, b)`: median-of-three (ninther above length 50)
pivot selection, returning the pivot index and a sortedness hint derived
from the number of index swaps performed. -/
def choosePivot (l : List Borrower) (a b : Nat) : Nat × Hint :=
  let len := b - a
  let i := a + len / 4 * 1
  let j := a + len / 4 * 2
  let k := a + len / 4 * 3
  let js :=
    if len ≥ 8 then
      if len ≥ 50 then
        let p1 := medianAdjacentGo l i 0
        let p2 := medianAdjacentGo l j p1.2
        let p3 := medianAdjacentGo l k p2.2
        medianGo l p1.1 p2.1 p3.1 p3.2
      else medianGo l i j k 0
    else (j, 0)
  if js.2 = 0 then (js.1, Hint.increasing)
  else if js.2 = 12 then (js.1, Hint.decreasing)
  else (js.1, Hint.unknown)

/-- The `i`-advancing scan of `partition`:
`for i <= j && data.Less(i, a) { i++ }`. -/
def scanI (l : List Borrower) (a : Nat) : Nat → Nat → Nat → Nat
  | 0, i, _ => i
  | fuel + 1, i, j =>
    if i ≤ j ∧ lessAt l i a then scanI l a fuel (i + 1) j else i

/-- The `j`-decreasing scan of `partition`:
`for i <= j && !data.Less(j, a) { j-- }`. -/
def scanJ (l : List Borrower) (a : Nat) : Nat → Nat → Nat → Nat
  | 0, _, j => j
  | fuel + 1, i, j =>
    if i ≤ j ∧ ¬ lessAt l j a then scanJ l a fuel i (j - 1) else j

/-- The main swap loop of `partition`. -/
def partLoop (l : List Borrower) (a b : Nat) :
    Nat → Nat → Nat → List Borrower × Nat
  | 0, _, j => (l, j)
  | fuel + 1, i, j =>
    let i2 := scanI l a b i j
    let j2 := scanJ l a b i2 j
    if i2 > j2 then (l, j2)
    else partLoop (swapB l i2 j2) a b fuel (i2 + 1) (j2 - 1)

/-- `partition(data, a, b, pivot)`: Hoare partition around the pivot moved
to position `a`; returns the data, the final pivot position and whether
the range was already partitioned. -/
def partitionGo (l : List Borrower) (a b pivot : Nat) :
    List Borrower × Nat × Bool :=
  let l1 := swapB l a pivot
  let i1 := scanI l1 a b (a + 1) (b - 1)
  let j1 := scanJ l1 a b i1 (b - 1)
  if i1 > j1 then (swapB l1 j1 a, j1, true)
  else
    let l2 := swapB l1 i1 j1
    let pr := partLoop l2 a b b (i1 + 1) (j1 - 1)
    (swapB pr.1 pr.2 a, pr.2, false)

/-- The `i`-advancing scan of `partitionEqual`:
`for i <= j && !data.Less(a, i) { i++ }`. -/
def scanIE (l : List Borrower) (a : Nat) : Nat → Nat → Nat → Nat
  | 0, i, _ => i
  | fuel + 1, i, j =>
    if i ≤ j ∧ ¬ lessAt l a i then scanIE l a fuel (i + 1) j else i

/-- The `j`-decreasing scan of `partitionEqual`:
`for i <= j && data.Less(a, j) { j-- }`. -/
def scanJE (l : List Borrower) (a : Nat) : Nat → Nat → Nat → Nat
  | 0, _, j => j
  | fuel + 1, i, j =>
    if i ≤ j ∧ lessAt l a j then scanJE l a fuel i (j - 1) else j

/-- The swap loop of `partitionEqual`, returning the data and final `i`. -/
def peLoop (l : List Borrower) (a b : Nat) :
    Nat → Nat → Nat → List Borrower × Nat
  | 0, i, _ => (l, i)
  | fuel + 1, i, j =>
    let i2 := scanIE l a b i j
    let j2 := scanJE l a b i2 j
    if i2 > j2 then (l, i2)
    else peLoop (swapB l i2 j2) a b fuel (i2 + 1) (j2 - 1)

/-- `partitionEqual(data, a, b, pivot)`: groups elements equal to the
pivot at the front, returning the data and the first index past them. -/
def partitionEqualGo (l : List Borrower) (a b pivot : Nat) :
    List Borrower × Nat :=
  let l1 := swapB l a pivot
  peLoop l1 a b b (a + 1) (b - 1)

/-- The `i`-advancing scan of the partial insertion sort:
`for i < b && !data.Less(i, i-1) { i++ }`. -/
def pisScan (l : List Borrower) (b : Nat) : Nat → Nat → Nat
  | 0, i => i
  | fuel + 1, i =>
    if i < b ∧ ¬ lessAt l i (i - 1) then pisScan l b fuel (i + 1) else i

/-- The left-shifting loop of the partial insertion sort:
`for j := i - 1; j >= 1; j-- { if !Less(j, j-1) break; Swap(j, j-1) }`. -/
def shiftL : List Borrower → Nat → List Borrower
  | l, 0 => l
  | l, j + 1 =>
    if lessAt l (j + 1) j then shiftL (swapB l (j + 1) j) j else l

/-- The right-shifting loop of the partial insertion sort:
`for j := i + 1; j < b; j++ { if !Less(j, j-1) break; Swap(j, j-1) }`. -/
def shiftR : Nat → List Borrower → Nat → Nat → List Borrower
  | 0, l, _, _ => l
  | fuel + 1, l, b, j =>
    if j < b ∧ lessAt l j (j - 1) then shiftR fuel (swapB l j (j - 1)) b (j + 1)
    else l

/-- The `maxSteps`-bounded outer loop of the partial insertion sort of the
Go sort package (`partialInsertionSort`); returns the data and whether the
range ended up sorted. -/
def pisLoop : Nat → List Borrower → Nat → Nat → Nat → List Borrower × Bool
  | 0, l, _, _, _ => (l, false)
  | step + 1, l, a, b, i =>
    let i := pisScan l b b i
    if i = b then (l, true)
    else if b - a < 50 then (l, false)
    else
      let l := swapB l i (i - 1)
      let l := if i - a ≥ 2 then shiftL l (i - 1) else l
      let l := if b - i ≥ 2 then shiftR b l b (i + 1) else l
      pisLoop step l a b i

/-- `partialInsertionSort(data, a, b)` (name shortened). -/
def partInsertionSort (l : List Borrower) (a b : Nat) :
    List Borrower × Bool :=
  pisLoop 5 l a b (a + 1)

/-- `reverseRange(data, a, b)`. -/
def revLoop : Nat → List Borrower → Nat → Nat → List Borrower
  | 0, l, _, _ => l
  | fuel + 1, l, i, j =>
    if i < j then revLoop fuel (swapB l i j) (i + 1) (j - 1) else l

/-- `reverseRange(data, a, b)` entry point. -/
def reverseRangeGo (l : List Borrower) (a b : Nat) : List Borrower :=
  revLoop b l a (b - 1)

/-- `pdqsort(data, a, b, limit)`: the driver of the Go sort package. The
fuel argument only bounds the combined loop-iteration/recursion depth;
every continuing step strictly shrinks `b - a`, so the `l.length + 1`
fuel supplied by `sortGo` is never exhausted. -/
def pdq : Nat → List Borrower → Nat → Nat → Nat → Bool → Bool → List Borrower
  | 0, l, _, _, _, _, _ => l
  | fuel + 1, l, a, b, limit, wasBalanced, wasPartitioned =>
    let length := b - a
    if length ≤ 12 then insertionSortGo l a b
    else if limit = 0 then heapSortGo l a b
    else
      let l1 := if wasBalanced then l else breakPatterns l a b
      let limit1 := if wasBalanced then limit else limit - 1
      let pv := choosePivot l1 a b
      let rev : Bool := pv.2 = Hint.decreasing
      let l2 := if rev then reverseRangeGo l1 a b else l1
      let pivot := if rev then (b - 1) - (pv.1 - a) else pv.1
      let hint := if rev then Hint.increasing else pv.2
      let gate := wasBalanced && wasPartitioned && decide (hint = Hint.increasing)
      let pis := if gate then partInsertionSort l2 a b else (l2, false)
      if pis.2 then pis.1
      else
        let l3 := pis.1
        if 0 < a ∧ ¬ lessAt l3 (a - 1) pivot then
          let pe := partitionEqualGo l3 a b pivot
          pdq fuel pe.1 pe.2 b limit1 wasBalanced wasPartitioned
        else
          let pr := partitionGo l3 a b pivot
          let mid := pr.2.1
          let balanced := decide (min (mid - a) (b - mid) ≥ length / 8)
          if mid - a < b - mid then
            pdq fuel (pdq fuel pr.1 a mid limit1 true true)
              (mid + 1) b limit1 balanced pr.2.2
          else
            pdq fuel (pdq fuel pr.1 (mid + 1) b limit1 true true)
              a mid limit1 balanced pr.2.2

/-- `bits.Len(uint(n))`. -/
def bitsLen (n : Nat) : Nat := if n = 0 then 0 else Nat.log2 n + 1

/-- `sort.Sort(ByShortfall(underwaterAccounts))`: sorts the whole list by
shortfall descending via pdqsort. -/
def sortGo (l : List Borrower) : List Borrower :=
  if l.length ≤ 1 then l
  else pdq (l.length + 1) l 0 l.length (bitsLen l.length) true true

/-!
The full `ShortfallCheck` scan cycle of `src/unnamed/part_003`, over an
environment abstracting the node connection. The second component of the
result is the list of `Aggregate` invocations performed (each recorded as
its call list), so that theorems can speak about whether a batch call was
made at all.
-/

/-- Environment of one `ShortfallCheck` cycle: the snapshot returned by
`borrowerCache.Read()`, the comptroller address, the ABI packing of one
address for `getAccountLiquidity`, the multicall `Aggregate` transport
(raw results abstracted to `Nat`), and the positional `Unpack` into the
`(errorCode, liquidity, shortfall)` triple. -/
structure ScanEnv where
  borrowers : List Borrower
  comptrollerAddr : Addr
  pack : Addr → Except String Nat
  aggregate : List MCall → Except String (List Nat)
  unpack : Nat → Except String (Int × Int × Int)

/-- `ShortfallCheck` (`src/unnamed/part_003` lines 323-390), without the
per-account printing/asset resolution that follows the sort. Returns the
scan outcome (`Except` mirrors the Go `error` return; the underwater list
models what the loop after the sort iterates over) together with the list
of `Aggregate` invocations made. Go iterates the decode loop over
`resp.ReturnData` while indexing `borrowers[i]`, which `List.zip`
mirrors positionally. -/
def shortfallCheck (env : ScanEnv) :
    Except String (List Borrower) × List (List MCall) :=
  if env.borrowers.isEmpty then (.ok [], [])
  else
    match packCalls env.pack env.comptrollerAddr
        (env.borrowers.map (·.address)) with
    | .error e => (.error e, [])
    | .ok calls =>
      match env.aggregate calls with
      | .error e => (.error e, [calls])
      | .ok resp =>
        match scanEntries (env.borrowers.zip (resp.map env.unpack)) with
        | .error e => (.error e, [calls])
        | .ok (uw, _) => (.ok (sortGo uw), [calls])

/-!
Specification-side reference sort, used to compare the ranking step with
what the spec promises. Modelled from the spec: "Sort the emitted list by
shortfall descending (worst-off accounts first) using a stable comparison;
accounts with equal shortfall retain their relative input order." It
inserts each account, in input order, after every already-placed account
with greater-or-equal shortfall — the canonical stable descending sort.
-/

/-- Stable descending insertion: places `x` after all accounts with
shortfall ≥ its own, before the first strictly smaller one. -/
def sInsert (x : Borrower) : List Borrower → List Borrower
  | [] => [x]
  | y :: ys => if sfVal y < sfVal x then x :: y :: ys else y :: sInsert x ys

/-- Left fold of `sInsert` over the input in order. -/
def stableSortAux (acc : List Borrower) : List Borrower → List Borrower
  | [] => acc
  | x :: xs => stableSortAux (sInsert x acc) xs

/-- Modelled from the spec: the stable descending-by-shortfall sort
(spec 4.3 step 5). -/
def stableSortDesc (l : List Borrower) : List Borrower := stableSortAux [] l

/-- The elements of `l` whose shortfall value is `v`, in order: ties with
value `v`. Stability of a sort means these subsequences are preserved. -/
def tiesOf (v : Int) (l : List Borrower) : List Borrower :=
  l.filter (fun b => sfVal b == v)

/-!
The borrower cache, `pkg/liquidatoor/cache.go`.

Two views of `Read()` are embedded, both from the same nine lines of
source:

* `readCopied`, the sequential semantics over a memory model that keeps
  the `Assets` slices in an explicit heap so that slice aliasing is
  visible: the Go struct copy `Borrower{Address: ..., Assets: c.borrowers[i].Assets}`
  copies the slice *header*, so reader and cache share the same backing
  array (the same heap cell here).
* `readRace`, the two-phase semantics relevant to a concurrent refresh:
  `make([]Borrower, len(c.borrowers))` reads the snapshot length *before*
  `c.lock.RLocker().Lock()` is taken, so the output length comes from the
  snapshot at that earlier moment while the copy loop ranges over the
  snapshot current once the lock is held.
-/

/-- A cached borrower whose `Assets` slice is a reference (`assetsRef`)
into an explicit heap of address lists. -/
structure CBorrower where
  address : Addr
  assetsRef : Nat
  shortfall : Option Int
deriving Repr, DecidableEq

/-- Cache memory: the heap of asset-list backing arrays plus the committed
snapshot. -/
structure CacheMem where
  heap : List (List Addr)
  snap : List CBorrower
deriving Repr, DecidableEq

/-- Dereference an assets slice. -/
def deref (m : CacheMem) (r : Nat) : List Addr := m.heap.getD r []

/-- The asset list of snapshot entry `i` as the cache itself sees it. -/
def snapAssets (m : CacheMem) (i : Nat) : List Addr :=
  deref m ((m.snap.getD i ⟨0, 0, none⟩).assetsRef)

/-- `BorrowerCache.Read()`, sequential view: a fresh top-level slice of
struct copies. Each copy carries the address and the *same* assets
reference as the snapshot entry; `Shortfall` is left at its zero value
(the Go code copies only `Address` and `Assets`). -/
def readCopied (m : CacheMem) : List CBorrower :=
  m.snap.map (fun b => { address := b.address, assetsRef := b.assetsRef,
                         shortfall := none })

/-- A reader writing through the assets slice of a borrower it was handed:
`borrowers[i].Assets[idx] = v` in Go, a store into the shared backing
array. -/
def writeAsset (m : CacheMem) (r idx : Nat) (v : Addr) : CacheMem :=
  { m with heap := m.heap.set r ((m.heap.getD r []).set idx v) }

/-- A successful refresh commit: `run` decodes every `getAssetsIn` result
into a freshly allocated slice (`abi.ConvertType` allocates) and installs
a brand-new `[]Borrower`; nothing already on the heap is written. -/
def refreshCommit (m : CacheMem) (data : List (Addr × List Addr)) : CacheMem :=
  { heap := m.heap ++ data.map (·.2),
    snap := (data.zip (List.range data.length)).map
      (fun p => { address := p.1.1, assetsRef := m.heap.length + p.2,
                  shortfall := none }) }

/-- `Read()` under a refresh that commits between the unsynchronized
`make([]Borrower, len(c.borrowers))` and the locked copy loop:
`snap0` is the snapshot when the length is read, `snap1` the snapshot the
loop copies. If the new snapshot is longer, `borrowers[i]` is indexed out
of range (`none`, a Go runtime panic); otherwise the output keeps the old
length, with entries beyond the new snapshot left at the zero value the
`make` call produced. Plain `Borrower` is used since slice aliasing is
irrelevant here. -/
def copyB (b : Borrower) : Borrower :=
  { address := b.address, assets := b.assets, shortfall := none }

/-- Two-phase `Read()`; see `copyB`. -/
def readRace (snap0 snap1 : List Borrower) : Option (List Borrower) :=
  if snap1.length ≤ snap0.length then
    some (snap1.map copyB ++ List.replicate (snap0.length - snap1.length) zeroB)
  else none

/-- `Read()` with no concurrent commit: both phases see the same snapshot. -/
def readAtomic (snap : List Borrower) : List Borrower := snap.map copyB

/-!
`BorrowerCache.run` (`pkg/liquidatoor/cache.go` lines 65-108): the refresh
body, over an environment abstracting the node connection.
-/

/-- Environment of one cache refresh: `GetAllBorrowers`, the packing of a
`getAssetsIn` call, the `Aggregate` transport, and the `Unpack` of one
result into a market-address list. -/
structure RefreshEnv where
  getAllBorrowers : Except String (List Addr)
  comptrollerAddr : Addr
  pack : Addr → Except String Nat
  aggregate : List MCall → Except String (List Nat)
  unpack : Nat → Except String (List Addr)

/-- The decode loop of `run`: each decoded result fills
`newBorrowers[i] = Borrower{Address: borrowers[i], Assets: assets}`
(shortfall left nil); any `Unpack` failure aborts the refresh. -/
def assembleEntries (unpack : Nat → Except String (List Addr)) :
    List (Addr × Nat) → Except String (List Borrower)
  | [] => .ok []
  | (addr, raw) :: rest =>
    match unpack raw with
    | .error e => .error e
    | .ok assets =>
      (assembleEntries unpack rest).map
        (fun bs => { address := addr, assets := assets, shortfall := none } :: bs)

/-- `BorrowerCache.run`: returns the snapshot after the attempt and the
Go `error` result. A failure at any step leaves the old snapshot in
place; success installs `newBorrowers` wholesale (entries past the end of
the response stay at the zero value of the `make` allocation). -/
def runCache (env : RefreshEnv) (old : List Borrower) :
    List Borrower × Except String Unit :=
  match env.getAllBorrowers with
  | .error e => (old, .error e)
  | .ok borrowers =>
    match packCalls env.pack env.comptrollerAddr borrowers with
    | .error e => (old, .error e)
    | .ok calls =>
      match env.aggregate calls with
      | .error e => (old, .error e)
      | .ok resp =>
        match assembleEntries env.unpack (borrowers.zip resp) with
        | .error e => (old, .error e)
        | .ok newBs =>
          (newBs ++ List.replicate (borrowers.length - resp.length) zeroB,
           .ok ())

/-!
`Balance.String` (`pkg/liquidatoor/balances.go`) and its `fmt` call sites.
-/

/-- The `Balance` struct: a raw `*big.Int` amount and the `uint8` decimals
of the underlying token. -/
structure Balance where
  value : Int
  decimals : Nat
deriving Repr, DecidableEq

/-- The panic message of the `default` branch of `Balance.String`. -/
def panicMsgFor (d : Nat) : String :=
  "no support for " ++ toString d ++ " decimals"

/-- `Balance.String()`: the switch on `decimals` divides by the matching
power-of-ten divider using `big.Int.Div` (Euclidean division, equal to
truncating division for the non-negative amounts involved) and renders
the quotient in decimal; any other decimals value panics, modelled as
`Except.error` carrying the panic message. -/
def balanceString (b : Balance) : Except String String :=
  if b.decimals = 6 then .ok (toString (b.value.ediv 1000000))
  else if b.decimals = 8 then .ok (toString (b.value.ediv 100000000))
  else if b.decimals = 9 then .ok (toString (b.value.ediv 1000000000))
  else if b.decimals = 18 then .ok (toString (b.value.ediv 1000000000000000000))
  else .error (panicMsgFor b.decimals)

/-- Every use of a `Balance` in the repository prints it through a
`fmt.Printf` `%s` verb. The `fmt` package recovers a panic raised by a
`String` method and renders it as `%!s(PANIC=String method: <msg>)` in
place of the value, so the panic is confined to that one formatting call
and the process continues. This definition is that call-site behaviour. -/
def fmtFormatBalance (b : Balance) : String :=
  match balanceString b with
  | .ok s => s
  | .error msg => "%!s(PANIC=String method: " ++ msg ++ ")"

/-!
`getAssets` (`src/unnamed/part_003` lines 392-430): per-account asset
classification and balance reporting.
-/

/-- One printed report line of `getAssets`: a supplied (underlying)
balance or a nonzero borrowed balance in a market. -/
inductive Line where
  | supply (market : Addr) (bal : Int)
  | borrow (market : Addr) (bal : Int)
deriving Repr, DecidableEq

/-- Environment of the asset resolver for a fixed account: the startup
`BorrowerMarkets` membership test, and the two per-market balance
queries (`BorrowBalanceStored`, `BalanceOfUnderlying`). -/
structure AssetEnv where
  isBorrowMarket : Addr → Bool
  borrowBalanceStored : Addr → Except String Int
  balanceOfUnderlying : Addr → Except String Int

/-- `getAssets`, reduced to the sequence of balance lines it prints: a
market present in `BorrowMarkets` is queried for the stored borrow
balance, printed only when nonzero; any other market is looked up in
`LendMarkets` and its underlying balance printed as a supply line. A
failed query makes `getAssets` return, truncating the report after the
lines already printed (the two unused `lentAssets` and `borrowedAssets`
accumulators of the source are dropped). -/
def getAssets (env : AssetEnv) : List Addr → List Line
  | [] => []
  | m :: rest =>
    if env.isBorrowMarket m then
      match env.borrowBalanceStored m with
      | .error _ => []
      | .ok bal =>
        (if bal ≠ 0 then [Line.borrow m bal] else []) ++ getAssets env rest
    else
      match env.balanceOfUnderlying m with
      | .error _ => []
      | .ok bal => Line.supply m bal :: getAssets env rest

/-!
Theorems. Each claim of the specification gets one theorem below (plus a
witness or counterexample where required).
-/

/-- C1: for a batch entry whose decoded in-band error code is zero, the
scan classifies the account as underwater exactly when
`liquidity < shortfall` (strict comparison of arbitrary-precision
integers), emitting the borrower with the reported shortfall; in
particular liquidity 10 / shortfall 10 is not underwater and liquidity 9 /
shortfall 10 is underwater with reported shortfall 10. -/
theorem scan_underwater_iff_liquidity_lt_shortfall :
    (∀ (b : Borrower) (l s : Int)
        (rest : List (Borrower × Except String (Int × Int × Int))),
      scanEntries ((b, .ok (0, l, s)) :: rest)
        = if l < s then
            (scanEntries rest).map (fun p => (mkUW b s :: p.1, p.2))
          else scanEntries rest)
    ∧ (∀ b : Borrower, scanEntries [(b, .ok (0, 10, 10))] = .ok ([], []))
    ∧ (∀ b : Borrower,
        scanEntries [(b, .ok (0, 9, 10))] = .ok ([mkUW b 10], [])) := by
  refine ⟨fun b l s rest => ?_, fun b => ?_, fun b => ?_⟩ <;>
    simp [scanEntries, mkUW, Except.map]

/-- C6: an entry of a successfully transported batch whose in-band error
code is nonzero is skipped entirely — the borrower is logged, the rest of
the batch is processed unchanged, and the entry contributes neither an
underwater account nor an error to the scan. -/
theorem scan_inband_error_skips_entry :
    ∀ (b : Borrower) (c l s : Int)
      (rest : List (Borrower × Except String (Int × Int × Int))),
      c ≠ 0 →
      scanEntries ((b, .ok (c, l, s)) :: rest)
        = (scanEntries rest).map (fun p => (p.1, b.address :: p.2)) := by
  intro b c l s rest hc
  simp [scanEntries, hc]

/-- Witness for C6 at a concrete entry: error code 3 on a borrower with
address 7 yields no underwater account, a log of address 7, and no error. -/
theorem scan_inband_error_skips_entry_witness :
    scanEntries [({ address := 7, assets := [], shortfall := none }, .ok (3, 0, 5))]
      = .ok ([], [7]) := by
  rw [scan_inband_error_skips_entry _ 3 0 5 [] (by decide)]
  rfl

/-- C7: a scan that reads an empty borrower cache returns successfully
with an empty result and performs no `Aggregate` call at all. -/
theorem scan_empty_cache_no_batch :
    ∀ env : ScanEnv, env.borrowers = [] → shortfallCheck env = (.ok [], []) := by
  intro env h
  simp [shortfallCheck, h]

/-- Concrete environment with an unprimed cache, for the C7 witness. -/
def emptyCacheEnv : ScanEnv :=
  { borrowers := []
    comptrollerAddr := 0
    pack := fun a => .ok a
    aggregate := fun calls => .ok (calls.map (·.callData))
    unpack := fun r => .ok (0, 0, r) }

/-- Witness for C7. -/
theorem scan_empty_cache_no_batch_witness :
    shortfallCheck emptyCacheEnv = (.ok [], []) :=
  scan_empty_cache_no_batch emptyCacheEnv rfl

/-- C5: a cache refresh that fails at any step (borrower-list fetch,
packing, aggregate transport, decoding) leaves the previously committed
snapshot unchanged, and a fully successful refresh commits a snapshot
that does not depend on the old one at all (wholesale replacement, no
merging). -/
theorem refresh_failure_preserves_snapshot :
    ∀ (env : RefreshEnv) (old : List Borrower),
      (∀ e, (runCache env old).2 = .error e → (runCache env old).1 = old)
      ∧ ((runCache env old).2 = .ok () →
          ∀ old', runCache env old' = runCache env old) := by
  intro env old
  unfold runCache
  rcases h1 : env.getAllBorrowers with e | borrowers <;> simp only [h1]
  · simp
  rcases h2 : packCalls env.pack env.comptrollerAddr borrowers with e | calls <;>
    simp only [h2]
  · simp
  rcases h3 : env.aggregate calls with e | resp <;> simp only [h3]
  · simp
  rcases h4 : assembleEntries env.unpack (borrowers.zip resp) with e | newBs <;>
    simp only [h4] <;> simp

/-- A refresh environment whose borrower-list fetch fails, and one where
every step succeeds, for the C5 witness. -/
def failingRefreshEnv : RefreshEnv :=
  { getAllBorrowers := .error "node unreachable"
    comptrollerAddr := 0
    pack := fun a => .ok a
    aggregate := fun calls => .ok (calls.map (·.callData))
    unpack := fun r => .ok [r] }

/-- See `failingRefreshEnv`. -/
def succeedingRefreshEnv : RefreshEnv :=
  { getAllBorrowers := .ok [4, 5]
    comptrollerAddr := 0
    pack := fun a => .ok a
    aggregate := fun calls => .ok (calls.map (·.callData))
    unpack := fun r => .ok [r] }

/-- Witness for C5: the failing refresh leaves a one-entry snapshot in
place, and the successful refresh produces the same result from two
different previous snapshots. -/
theorem refresh_failure_preserves_snapshot_witness :
    (runCache failingRefreshEnv [mkUW zeroB 1]).1 = [mkUW zeroB 1]
    ∧ runCache succeedingRefreshEnv [mkUW zeroB 1]
        = runCache succeedingRefreshEnv [] :=
  ⟨(refresh_failure_preserves_snapshot failingRefreshEnv [mkUW zeroB 1]).1
      "node unreachable" rfl,
   (refresh_failure_preserves_snapshot succeedingRefreshEnv []).2 rfl
      [mkUW zeroB 1]⟩

/-- C8: for each market in an underwater account's membership list, a
Borrow Market is queried for the stored borrow balance and reported as a
borrow position only when that balance is nonzero, while a market that is
not a Borrow Market is queried for the underlying-token balance and
always reported as a supply position. -/
theorem resolver_classifies_markets :
    ∀ (env : AssetEnv) (m : Addr) (rest : List Addr) (bal : Int),
      (env.isBorrowMarket m = true → env.borrowBalanceStored m = .ok bal →
        getAssets env (m :: rest)
          = (if bal = 0 then [] else [Line.borrow m bal]) ++ getAssets env rest)
      ∧ (env.isBorrowMarket m = false → env.balanceOfUnderlying m = .ok bal →
        getAssets env (m :: rest) = Line.supply m bal :: getAssets env rest) := by
  intro env m rest bal
  constructor <;> intro h1 h2
  · rcases eq_or_ne bal 0 with hb | hb <;> simp [getAssets, h1, h2, hb]
  · simp [getAssets, h1, h2]

/-- Concrete resolver environment for the C8 witness: market 1 is a
Borrow Market with stored borrow balance 0, market 2 is a pure Lend
Market with underlying balance 70. -/
def cWitnessAssetEnv : AssetEnv :=
  { isBorrowMarket := fun m => m == 1
    borrowBalanceStored := fun _ => .ok 0
    balanceOfUnderlying := fun _ => .ok 70 }

/-- Witness for C8: the zero borrow balance is not reported, the lend
market is reported as a supply position. -/
theorem resolver_classifies_markets_witness :
    getAssets cWitnessAssetEnv [1] = []
    ∧ getAssets cWitnessAssetEnv [2] = [Line.supply 2 70] := by
  refine ⟨?_, ?_⟩
  · have h := (resolver_classifies_markets cWitnessAssetEnv 1 [] 0).1 rfl rfl
    simpa using h
  · have h := (resolver_classifies_markets cWitnessAssetEnv 2 [] 70).2 rfl rfl
    simpa using h

/-- C9: for the supported decimals 6, 8, 9 and 18 and a non-negative raw
amount, formatting renders exactly the integer quotient of the raw amount
by ten to the decimals, discarding the remainder; in particular
`Format(1234567890123456789, 18)` is `"1"` and `Format(999999, 6)` is
`"0"`. -/
theorem balance_format_truncates :
    (∀ (raw : Int) (d : Nat), 0 ≤ raw → (d = 6 ∨ d = 8 ∨ d = 9 ∨ d = 18) →
      balanceString ⟨raw, d⟩ = .ok (toString (raw.ediv ((10 : Int) ^ d))))
    ∧ balanceString ⟨1234567890123456789, 18⟩ = .ok "1"
    ∧ balanceString ⟨999999, 6⟩ = .ok "0" := by
  refine ⟨fun raw d _ hd => ?_, rfl, rfl⟩
  rcases hd with rfl | rfl | rfl | rfl <;> simp [balanceString]

/-- Witness for C9. -/
theorem balance_format_truncates_witness :
    (0 : Int) ≤ 5000000
    ∧ balanceString ⟨5000000, 6⟩
        = .ok (toString ((5000000 : Int).ediv ((10 : Int) ^ 6))) :=
  ⟨by decide, balance_format_truncates.1 5000000 6 (by decide) (Or.inl rfl)⟩

/-- C10: a decimals value outside 6, 8, 9, 18 makes the formatting call
fail with the configuration panic message, and the `fmt` call site that
prints the balance absorbs it into a placeholder string for that single
call, so the process is not terminated. -/
theorem balance_format_unsupported_decimals :
    ∀ (v : Int) (d : Nat), ¬ (d = 6 ∨ d = 8 ∨ d = 9 ∨ d = 18) →
      balanceString ⟨v, d⟩ = .error (panicMsgFor d)
      ∧ fmtFormatBalance ⟨v, d⟩
          = "%!s(PANIC=String method: " ++ panicMsgFor d ++ ")" := by
  intro v d hd
  push_neg at hd
  obtain ⟨h6, h8, h9, h18⟩ := hd
  constructor
  · simp [balanceString, h6, h8, h9, h18]
  · simp [fmtFormatBalance, balanceString, h6, h8, h9, h18]

/-- Witness for C10 at decimals 4. -/
theorem balance_format_unsupported_decimals_witness :
    ¬ ((4 : Nat) = 6 ∨ (4 : Nat) = 8 ∨ (4 : Nat) = 9 ∨ (4 : Nat) = 18)
    ∧ balanceString ⟨123, 4⟩ = .error (panicMsgFor 4) :=
  ⟨by decide, (balance_format_unsupported_decimals 123 4 (by decide)).1⟩

/-- C4 failing interleaving: the read captures the output length from a
two-borrower snapshot, a refresh then commits a one-borrower snapshot
before the read lock is taken, and the copy loop runs against the new
snapshot. The read returns the new borrower followed by a zero-valued
borrower — neither the fully-old nor the fully-new snapshot. In the
symmetric interleaving (new snapshot longer) the copy loop indexes the
output slice out of range, a runtime panic (`none`). -/
theorem read_race_yields_hybrid_snapshot :
    readRace [⟨1, [], none⟩, ⟨2, [], none⟩] [⟨3, [], none⟩]
      = some [⟨3, [], none⟩, zeroB]
    ∧ (∀ r ∈ readRace [⟨1, [], none⟩, ⟨2, [], none⟩] [⟨3, [], none⟩],
        r ≠ readAtomic [⟨1, [], none⟩, ⟨2, [], none⟩]
        ∧ r ≠ readAtomic [⟨3, [], none⟩])
    ∧ readRace [⟨3, [], none⟩] [⟨1, [], none⟩, ⟨2, [], none⟩] = none := by
  decide

/-- Concrete cache memory for the C3 counterexample: one committed
borrower (address 1) whose assets slice is heap cell 0 holding `[5]`. -/
def aliasedCacheMem : CacheMem := { heap := [[5]], snap := [⟨1, 0, none⟩] }

/-- C3 counterexample: `Read()` hands out a struct copy that shares the
assets slice with the snapshot (same heap cell), so a reader storing 7
into its copy of the membership list changes what the cache snapshot
itself sees from `[5]` to `[7]` — the returned borrowers are not an
independent deep copy. -/
theorem read_shares_assets_backing_array :
    (readCopied aliasedCacheMem).getD 0 ⟨0, 0, none⟩ = ⟨1, 0, none⟩
    ∧ snapAssets aliasedCacheMem 0 = [5]
    ∧ snapAssets
        (writeAsset aliasedCacheMem
          ((readCopied aliasedCacheMem).getD 0 ⟨0, 0, none⟩).assetsRef 0 7) 0
        = [7] := by
  decide

/-- C3 amended: `Read()` returns a fresh top-level slice of per-borrower
struct copies — addresses copied, `Shortfall` cleared, empty when no
refresh has committed — and a successful refresh only ever installs
freshly allocated data, never writing heap cells already handed to
readers; but each copy shares its market-membership slice with the
snapshot rather than deep-copying it. -/
theorem read_returns_struct_copies :
    ∀ m : CacheMem,
      (m.snap = [] → readCopied m = [])
      ∧ (readCopied m).map (·.address) = m.snap.map (·.address)
      ∧ (readCopied m).map (·.assetsRef) = m.snap.map (·.assetsRef)
      ∧ (∀ b ∈ readCopied m, b.shortfall = none)
      ∧ (∀ (data : List (Addr × List Addr)) (r : Nat), r < m.heap.length →
          deref (refreshCommit m data) r = deref m r) := by
  intro m
  refine ⟨fun h => by simp [readCopied, h], by simp [readCopied],
    by simp [readCopied], fun b hb => ?_, fun data r hr => ?_⟩
  · simp [readCopied] at hb
    obtain ⟨a, -, rfl⟩ := hb
    rfl
  · simp only [deref, refreshCommit, List.getD]
    rw [List.get?_eq_getElem?, List.get?_eq_getElem?,
      List.getElem?_append_left hr]

/-- Witness for C3 amended, at the concrete aliased memory. -/
theorem read_returns_struct_copies_witness :
    deref (refreshCommit aliasedCacheMem [(2, [9])]) 0 = deref aliasedCacheMem 0 :=
  (read_returns_struct_copies aliasedCacheMem).2.2.2.2 [(2, [9])] 0 (by decide)

/-!
C2: the ranking step. `sort.Sort` is pdqsort, which is *not* stable: for
13 or more underwater accounts the partitioning step can reorder accounts
of equal shortfall, refuting the stability half of the claim. On at most
12 accounts `pdqsort` is exactly `insertionSort`, which *is* the stable
descending sort; this is proved below.
-/

/-- Shortfalls of the 13-borrower counterexample input, indexed by
borrower address. -/
def cxShortfalls : List Int := [2, 2, 2, 1, 1, 1, 3, 3, 3, 2, 2, 1, 3]

/-- Counterexample scan environment: 13 cached borrowers with addresses
0..12; every liquidity check decodes to error code 0, liquidity 0 and the
shortfall above, so all 13 are underwater. -/
def cxEnv : ScanEnv :=
  { borrowers :=
      (List.range 13).map (fun i => { address := i, assets := [], shortfall := none })
    comptrollerAddr := 99
    pack := fun a => .ok a
    aggregate := fun calls => .ok (calls.map (·.callData))
    unpack := fun r => .ok (0, 0, cxShortfalls.getD r 0) }

/-- The underwater list the counterexample scan builds, in input order. -/
def cxUW : List Borrower :=
  (List.range 13).map
    (fun i => { address := i, assets := [], shortfall := some (cxShortfalls.getD i 0) })

/-- C2 counterexample: on the 13-account input the scan output *is* the
pdqsort of the underwater list and *is* sorted by shortfall descending,
but the accounts of equal shortfall 3 — addresses 6, 7, 8, 12 in input
order — come out as 6, 12, 8, 7: ties do not retain their relative input
order, refuting the stability half of the claim. -/
theorem scan_ranking_not_stable_cx :
    (shortfallCheck cxEnv).1 = .ok (sortGo cxUW)
    ∧ List.Pairwise descB (sortGo cxUW)
    ∧ tiesOf 3 cxUW
        = [mkUW { address := 6, assets := [], shortfall := none } 3,
           mkUW { address := 7, assets := [], shortfall := none } 3,
           mkUW { address := 8, assets := [], shortfall := none } 3,
           mkUW { address := 12, assets := [], shortfall := none } 3]
    ∧ (sortGo cxUW).map (·.address) = [6, 12, 8, 7, 9, 2, 0, 10, 1, 5, 4, 3, 11]
    ∧ tiesOf 3 (sortGo cxUW) ≠ tiesOf 3 cxUW := by
  refine ⟨rfl, by decide, by decide, by decide, by decide⟩

/-- `sInsert` grows the list by one. -/
theorem sInsert_length (x : Borrower) : ∀ l, (sInsert x l).length = l.length + 1 := by
  intro l
  induction l with
  | nil => rfl
  | cons y ys ih =>
    by_cases h : sfVal y < sfVal x <;> simp [sInsert, h, ih]

/-- Membership in `sInsert`. -/
theorem mem_sInsert (w x : Borrower) :
    ∀ l, w ∈ sInsert x l ↔ w = x ∨ w ∈ l := by
  intro l
  induction l with
  | nil => simp [sInsert]
  | cons y ys ih =>
    by_cases h : sfVal y < sfVal x <;> simp [sInsert, h, ih]
    tauto

/-- `sInsert` preserves the descending pairwise order. -/
theorem sInsert_pairwise (x : Borrower) :
    ∀ l, List.Pairwise descB l → List.Pairwise descB (sInsert x l) := by
  intro l
  induction l with
  | nil => intro; simp [sInsert, List.pairwise_cons]
  | cons y ys ih =>
    intro hp
    rw [List.pairwise_cons] at hp
    obtain ⟨hy, hys⟩ := hp
    by_cases h : sfVal y < sfVal x
    · simp only [sInsert, if_pos h]
      refine List.pairwise_cons.mpr ⟨?_, List.pairwise_cons.mpr ⟨hy, hys⟩⟩
      intro z hz
      rcases List.mem_cons.mp hz with rfl | hz
      · exact le_of_lt h
      · exact le_trans (hy z hz) (le_of_lt h)
    · simp only [sInsert, if_neg h]
      refine List.pairwise_cons.mpr ⟨?_, ih hys⟩
      intro z hz
      rcases (mem_sInsert z x ys).mp hz with rfl | hz
      · exact le_of_not_lt h
      · exact hy z hz

/-- Inserting an element strictly greater than a trailing element
commutes with that trailing element. -/
theorem sInsert_append_singleton (x y : Borrower) (h : sfVal y < sfVal x) :
    ∀ q, sInsert x (q ++ [y]) = sInsert x q ++ [y] := by
  intro q
  induction q with
  | nil => simp [sInsert, h]
  | cons z q ih =>
    by_cases hz : sfVal z < sfVal x <;> simp [sInsert, hz, ih]

/-- Inserting an element no greater than anything in the list appends it. -/
theorem sInsert_of_all_ge (x : Borrower) :
    ∀ q, (∀ z ∈ q, sfVal x ≤ sfVal z) → sInsert x q = q ++ [x] := by
  intro q
  induction q with
  | nil => intro; rfl
  | cons z q ih =>
    intro h
    have hz : ¬ sfVal z < sfVal x := not_lt.mpr (h z (List.mem_cons_self z q))
    simp only [sInsert, if_neg hz, List.cons_append, List.cons.injEq, true_and]
    exact ih (fun w hw => h w (List.mem_cons_of_mem z hw))

/-- `swapB` commutes with a cons at positive indices. -/
theorem swapB_cons (w : Borrower) (u : List Borrower) (i j : Nat) :
    swapB (w :: u) (i + 1) (j + 1) = w :: swapB u i j := by
  unfold swapB
  simp only [List.get?_eq_getElem?, List.getElem?_cons_succ]
  cases hi : u[i]? <;> cases hj : u[j]? <;> simp [hi, hj]

/-- Swapping the two elements straddling the boundary of a prefix. -/
theorem swapB_adj (y x : Borrower) (rest : List Borrower) :
    ∀ q : List Borrower,
      swapB (q ++ y :: x :: rest) (q.length + 1) q.length = q ++ x :: y :: rest := by
  intro q
  induction q with
  | nil => rfl
  | cons w q ih =>
    show swapB (w :: (q ++ y :: x :: rest)) (q.length + 1 + 1) (q.length + 1)
      = w :: (q ++ x :: y :: rest)
    rw [swapB_cons, ih]

/-- `getB` at the boundary of a prefix. -/
theorem getB_append (z : Borrower) (t : List Borrower) :
    ∀ q : List Borrower, getB (q ++ z :: t) q.length = z := by
  intro q
  induction q with
  | nil => rfl
  | cons w q ih => simpa [getB, List.getD] using ih

/-- The Go insertion-sort inner loop run at the boundary of a sorted
prefix inserts the boundary element stably into the prefix. -/
theorem bubble_spec (x : Borrower) :
    ∀ (p rest : List Borrower), List.Pairwise descB p →
      bubble (p ++ x :: rest) 0 p.length = sInsert x p ++ rest := by
  intro p
  induction p using List.reverseRecOn with
  | nil => intro rest _; simp [bubble, sInsert]
  | append_singleton q y ih =>
    intro rest hp
    rw [List.pairwise_append] at hp
    obtain ⟨hq, -, hqy⟩ := hp
    have hlen : (q ++ [y]).length = q.length + 1 := by simp
    have hassoc : (q ++ [y]) ++ x :: rest = q ++ y :: x :: rest := by simp
    rw [hlen, hassoc]
    have hget1 : getB (q ++ y :: x :: rest) (q.length + 1) = x := by
      have := getB_append x rest (q ++ [y])
      simpa using this
    have hget0 : getB (q ++ y :: x :: rest) q.length = y :=
      getB_append y (x :: rest) q
    by_cases h : sfVal y < sfVal x
    · have hcond : lessAt (q ++ y :: x :: rest) (q.length + 1) q.length = true := by
        simp [lessAt, hget0, hget1, lessB, h]
      rw [show bubble (q ++ y :: x :: rest) 0 (q.length + 1)
            = bubble (swapB (q ++ y :: x :: rest) (q.length + 1) q.length) 0 q.length by
          simp [bubble, hcond]]
      rw [swapB_adj, ih (y :: rest) hq,
        sInsert_append_singleton x y h q]
      simp
    · have hcond : lessAt (q ++ y :: x :: rest) (q.length + 1) q.length = false := by
        simp [lessAt, hget0, hget1, lessB, h]
      rw [show bubble (q ++ y :: x :: rest) 0 (q.length + 1)
            = q ++ y :: x :: rest by simp [bubble, hcond]]
      have hall : ∀ z ∈ q ++ [y], sfVal x ≤ sfVal z := by
        intro z hz
        rcases List.mem_append.mp hz with hz | hz
        · exact le_trans (le_of_not_lt h) (hqy z hz y (List.mem_singleton_self y))
        · rw [List.mem_singleton.mp hz]
          exact le_of_not_lt h
      rw [sInsert_of_all_ge x (q ++ [y]) hall]
      simp

/-- The insertion-sort outer loop computes the stable descending sort. -/
theorem isort_loop :
    ∀ (xs done : List Borrower) (fuel : Nat), xs.length ≤ fuel →
      List.Pairwise descB done →
      isortAux 0 (done.length + xs.length) fuel done.length (done ++ xs)
        = stableSortAux done xs := by
  intro xs
  induction xs with
  | nil =>
    intro done fuel _ _
    cases fuel with
    | zero => simp [isortAux, stableSortAux]
    | succ f => simp [isortAux, stableSortAux]
  | cons x xs ih =>
    intro done fuel hf hp
    cases fuel with
    | zero => exact absurd hf (by simp)
    | succ f =>
      have hlt : done.length < done.length + (x :: xs).length := by
        simp
      rw [show isortAux 0 (done.length + (x :: xs).length) (f + 1) done.length
            (done ++ x :: xs)
          = isortAux 0 (done.length + (x :: xs).length) f (done.length + 1)
            (bubble (done ++ x :: xs) 0 done.length) by
        simp [isortAux, hlt]]
      rw [bubble_spec x done xs hp]
      have hlen := sInsert_length x done
      have harith : done.length + (x :: xs).length
          = (sInsert x done).length + xs.length := by
        simp only [List.length_cons, hlen]
        omega
      rw [harith, show done.length + 1 = (sInsert x done).length from hlen.symm]
      rw [ih (sInsert x done) f (Nat.le_of_succ_le_succ hf) (sInsert_pairwise x done hp)]
      rfl

/-- The whole-range Go insertion sort is the stable descending sort. -/
theorem insertionSortGo_eq_stableSortDesc :
    ∀ l : List Borrower, insertionSortGo l 0 l.length = stableSortDesc l := by
  intro l
  cases l with
  | nil => rfl
  | cons x xs =>
    show isortAux 0 (xs.length + 1) (xs.length + 1 - 0) 1 (x :: xs)
      = stableSortDesc (x :: xs)
    have h := isort_loop xs [x] (xs.length + 1 - 0) (by omega)
      (List.pairwise_singleton descB x)
    simp only [List.length_singleton, List.singleton_append] at h
    rw [show (1 : Nat) + xs.length = xs.length + 1 from Nat.add_comm 1 xs.length] at h
    exact h

/-- On at most 12 elements, `sort.Sort` is exactly the whole-range
insertion sort (the `length <= maxInsertion` branch of pdqsort), hence
the stable descending sort. -/
theorem sortGo_eq_stableSortDesc_of_le12 :
    ∀ l : List Borrower, l.length ≤ 12 → sortGo l = stableSortDesc l := by
  intro l h12
  by_cases h1 : l.length ≤ 1
  · rw [show sortGo l = l by simp [sortGo, h1]]
    match l, h1 with
    | [], _ => rfl
    | [x], _ => rfl
  · have hpdq : pdq (l.length + 1) l 0 l.length (bitsLen l.length) true true
        = insertionSortGo l 0 l.length := by
      simp only [pdq, Nat.sub_zero]
      rw [if_pos h12]
    rw [show sortGo l
          = pdq (l.length + 1) l 0 l.length (bitsLen l.length) true true by
        simp [sortGo, h1]]
    rw [hpdq, insertionSortGo_eq_stableSortDesc]

/-- The stable descending sort is pairwise descending. -/
theorem stableSortAux_pairwise :
    ∀ (xs acc : List Borrower), List.Pairwise descB acc →
      List.Pairwise descB (stableSortAux acc xs) := by
  intro xs
  induction xs with
  | nil => intro acc h; exact h
  | cons x xs ih => intro acc h; exact ih (sInsert x acc) (sInsert_pairwise x acc h)

/-- Unfolding a tie-class filter over a cons cell. -/
theorem tiesOf_cons (v : Int) (b : Borrower) (l : List Borrower) :
    tiesOf v (b :: l) = if sfVal b = v then b :: tiesOf v l else tiesOf v l := by
  by_cases h : sfVal b = v <;> simp [tiesOf, List.filter_cons, h]

/-- Ties of a stable insertion into a sorted accumulator: the new element
joins the end of its tie class; other tie classes are untouched. -/
theorem tiesOf_sInsert (v : Int) (x : Borrower) :
    ∀ acc, List.Pairwise descB acc →
      tiesOf v (sInsert x acc)
        = if sfVal x = v then tiesOf v acc ++ [x] else tiesOf v acc := by
  intro acc
  induction acc with
  | nil =>
    intro
    by_cases hv : sfVal x = v <;> simp [tiesOf, sInsert, hv]
  | cons y ys ih =>
    intro hp
    rw [List.pairwise_cons] at hp
    obtain ⟨hy, hys⟩ := hp
    by_cases h : sfVal y < sfVal x
    · simp only [sInsert, if_pos h]
      by_cases hv : sfVal x = v
      · have hnil : tiesOf v (y :: ys) = [] := by
          simp only [tiesOf]
          rw [List.filter_eq_nil_iff]
          intro z hz
          simp only [beq_iff_eq]
          rcases List.mem_cons.mp hz with rfl | hz
          · omega
          · have hzy : sfVal z ≤ sfVal y := hy z hz
            omega
        rw [tiesOf_cons, if_pos hv, if_pos hv, hnil]
        rfl
      · rw [tiesOf_cons, if_neg hv, if_neg hv]
    · simp only [sInsert, if_neg h]
      rw [tiesOf_cons]
      by_cases hyv : sfVal y = v
      · rw [if_pos hyv, ih hys, tiesOf_cons, if_pos hyv]
        by_cases hv : sfVal x = v
        · rw [if_pos hv, if_pos hv]
          simp
        · rw [if_neg hv, if_neg hv]
      · rw [if_neg hyv, ih hys, tiesOf_cons, if_neg hyv]

/-- Ties of the full stable sort: tie classes of the accumulator come
first, then the tie class of the remaining input, in input order. -/
theorem tiesOf_stableSortAux (v : Int) :
    ∀ (xs acc : List Borrower), List.Pairwise descB acc →
      tiesOf v (stableSortAux acc xs) = tiesOf v acc ++ tiesOf v xs := by
  intro xs
  induction xs with
  | nil => intro acc _; simp [stableSortAux, tiesOf]
  | cons x xs ih =>
    intro acc hp
    show tiesOf v (stableSortAux (sInsert x acc) xs) = _
    rw [ih (sInsert x acc) (sInsert_pairwise x acc hp),
      tiesOf_sInsert v x acc hp]
    by_cases hv : sfVal x = v <;> simp [tiesOf, hv]

/-- The stable descending sort preserves every tie class in input order. -/
theorem tiesOf_stableSortDesc (v : Int) (l : List Borrower) :
    tiesOf v (stableSortDesc l) = tiesOf v l := by
  have := tiesOf_stableSortAux v l [] (List.Pairwise.nil)
  simpa [stableSortDesc, tiesOf] using this

/-- C2 amended: whenever at most 12 accounts are classified underwater,
the scan returns exactly the stable descending-by-shortfall sort of the
underwater accounts: the result is sorted by shortfall descending and
accounts of equal shortfall retain their relative input order. (For 13
or more underwater accounts `sort.Sort` delegates to an unstable
quicksort and ties may be reordered, as the counterexample shows.) -/
theorem scan_ranking_sorted_stable_le12 :
    ∀ (env : ScanEnv) (calls : List MCall) (resp : List Nat)
      (uw : List Borrower) (lg : List Addr),
      packCalls env.pack env.comptrollerAddr (env.borrowers.map (·.address))
        = .ok calls →
      env.aggregate calls = .ok resp →
      scanEntries (env.borrowers.zip (resp.map env.unpack)) = .ok (uw, lg) →
      uw.length ≤ 12 →
      (shortfallCheck env).1 = .ok (sortGo uw)
      ∧ sortGo uw = stableSortDesc uw
      ∧ List.Pairwise descB (sortGo uw)
      ∧ ∀ v : Int, tiesOf v (sortGo uw) = tiesOf v uw := by
  intro env calls resp uw lg h1 h2 h3 h12
  have hsort := sortGo_eq_stableSortDesc_of_le12 uw h12
  refine ⟨?_, hsort, ?_, ?_⟩
  · by_cases he : env.borrowers.isEmpty
    · have hnil : env.borrowers = [] := List.isEmpty_iff.mp he
      rw [hnil] at h3
      have h3' : (Except.ok ([], []) : Except String (List Borrower × List Addr))
          = .ok (uw, lg) := h3
      injection h3' with hpair
      have huw : uw = [] := (Prod.ext_iff.mp hpair).1.symm
      subst huw
      simp [shortfallCheck, he, sortGo]
    · simp [shortfallCheck, he, h1, h2, h3]
  · rw [hsort]
    exact stableSortAux_pairwise uw [] List.Pairwise.nil
  · intro v
    rw [hsort]
    exact tiesOf_stableSortDesc v uw

/-- Scan environment for the C2-amended witness: four borrowers whose
liquidity checks decode to shortfalls 5, 20, 10, 20 with liquidities
0, 0, 10, 0 — account 2 is healthy (liquidity equals shortfall), the
other three are underwater with a tie between addresses 1 and 3. -/
def rankWitnessEnv : ScanEnv :=
  { borrowers :=
      (List.range 4).map (fun i => { address := i, assets := [], shortfall := none })
    comptrollerAddr := 77
    pack := fun a => .ok a
    aggregate := fun calls => .ok (calls.map (·.callData))
    unpack := fun r =>
      .ok (0, [(0 : Int), 0, 10, 0].getD r 0, [(5 : Int), 20, 10, 20].getD r 0) }

/-- The underwater list of `rankWitnessEnv`, in input order. -/
def rankWitnessUW : List Borrower :=
  [{ address := 0, assets := [], shortfall := some 5 },
   { address := 1, assets := [], shortfall := some 20 },
   { address := 3, assets := [], shortfall := some 20 }]

/-- Witness for C2 amended: the concrete four-borrower scan ranks the
three underwater accounts as 20, 20, 5 with the two tied accounts in
input order. -/
theorem scan_ranking_sorted_stable_le12_witness :
    (shortfallCheck rankWitnessEnv).1 = .ok (sortGo rankWitnessUW)
    ∧ sortGo rankWitnessUW = stableSortDesc rankWitnessUW
    ∧ List.Pairwise descB (sortGo rankWitnessUW)
    ∧ ∀ v : Int, tiesOf v (sortGo rankWitnessUW) = tiesOf v rankWitnessUW :=
  scan_ranking_sorted_stable_le12 rankWitnessEnv
    [⟨77, 0⟩, ⟨77, 1⟩, ⟨77, 2⟩, ⟨77, 3⟩] [0, 1, 2, 3] rankWitnessUW []
    rfl rfl rfl (by decide)

end Liquidatoor
